import Mathlib

/-!
Verification of the goplugins routing core (package routing, Mux dispatcher)
and the account permission model, as a shallow embedding in Lean.

Sources embedded:
  * applyMiddleware, Mux.add, Mux.ServeHTTP, Mux.findRouter, Mux.Host,
    Mux.Reverse, DefaultHTTPErrorHandler, NotFoundHandler,
    MethodNotAllowedHandler (routing package).
  * User.HasPerm, UserHasPerm (account models).

The Router tree matcher (Router.Find / Router.Add) and the per-request
Context / Response implementation are referenced by the dispatcher but their
source files are not part of the repository snapshot; where needed they are
modelled from the specification and marked as such in doc comments.

Go semantics conventions used throughout: Go strings become String, Go
slices become List, Go maps become association lists with first-match
lookup (Go map iteration order is unspecified; the list fixes one order),
pointer mutation of the per-request context becomes explicit state passing,
and a handler returning error becomes a function producing the updated
context together with an optional error value.
-/

namespace GoPlugins

/-- Instrumentation events used to state ordering properties of the
dispatch path: context reset, route resolution attempt, invocation of the
HTTP error handler, and return of the context to the pool. -/
inductive Ev where
  | reset
  | find
  | errorHandled
  | released
deriving DecidableEq, Repr

/-- The parts of an inbound request the dispatcher reads: method,
Host header, and escaped URL path. -/
structure Request where
  method : String
  host : String
  path : String
deriving DecidableEq, Repr

/-- A Go interface value used as a response message. The routing code
constructs and inspects exactly two shapes: a plain string, and the
single-level string map written as Map with string values. -/
inductive Msg where
  | str (s : String)
  | obj (entries : List (String × String))
deriving DecidableEq, Repr

/-- Go http.StatusText for the status codes exercised by this development;
unknown codes give the empty string exactly as in Go. -/
def statusText : Nat → String
  | 200 => "OK"
  | 400 => "Bad Request"
  | 404 => "Not Found"
  | 405 => "Method Not Allowed"
  | 500 => "Internal Server Error"
  | 502 => "Bad Gateway"
  | 503 => "Service Unavailable"
  | _ => ""

/-- Go error values reaching the dispatcher: a typed HTTPError with
status code, message and optional wrapped internal error, or any other
untyped error carrying only its Error() text. -/
inductive GoError where
  | typed (code : Nat) (message : Msg) (internal : Option GoError)
  | basic (text : String)
deriving Repr

/-- Rendering of a Msg by Go fmt %v: strings print as themselves, a map
prints in the map bracket form. -/
def msgFmt : Msg → String
  | .str s => s
  | .obj es => "map[" ++ String.intercalate " " (es.map (fun kv => kv.1 ++ ":" ++ kv.2)) ++ "]"

/-- HTTPError.Error and the Error method of plain errors: the typed form
prints code and message, appending the internal error text when present. -/
def GoError.errText : GoError → String
  | .basic t => t
  | .typed c msg none => "code=" ++ toString c ++ ", message=" ++ msgFmt msg
  | .typed c msg (some ie) =>
      "code=" ++ toString c ++ ", message=" ++ msgFmt msg ++ ", internal=" ++ ie.errText

/-- Modelled from the spec: the Response side of the missing Context
implementation. The dispatcher only observes the Committed flag, the
status code, and whether a body was written (and which message it
serializes). -/
structure Resp where
  committed : Bool
  status : Nat
  body : Option Msg
deriving DecidableEq, Repr

/-- The handler reference stored in a context, defunctionalized: the
context initially holds the NotFoundHandler sentinel; Router.Find stores
either a sentinel or the index of a registered route. -/
inductive Resolved where
  | notFound
  | methodNotAllowed
  | route (i : Nat)
deriving DecidableEq, Repr

/-- Modelled from the spec: the per-request Context of the missing context
implementation, restricted to the state the dispatcher and error handler
touch, plus the instrumentation trace. -/
structure Ctx where
  request : Request
  response : Resp
  resolved : Resolved
  trace : List Ev
deriving DecidableEq, Repr

/-- HandlerFunc: a Go handler mutates the context through its pointer and
returns an error; embedded as a function from context to updated context
paired with the optional error. -/
def HandlerFunc : Type := Ctx → Ctx × Option GoError

/-- MiddlewareFunc wraps a handler to produce a handler. -/
def MW : Type := HandlerFunc → HandlerFunc

/-- ErrNotFound: NewHTTPError(http.StatusNotFound). -/
def errNotFound : GoError := .typed 404 (.str (statusText 404)) none

/-- ErrMethodNotAllowed: NewHTTPError(http.StatusMethodNotAllowed). -/
def errMethodNotAllowed : GoError := .typed 405 (.str (statusText 405)) none

/-- NotFoundHandler from the routing package: returns ErrNotFound. -/
def notFoundHandler : HandlerFunc := fun c => (c, some errNotFound)

/-- MethodNotAllowedHandler from the routing package: returns
ErrMethodNotAllowed. -/
def methodNotAllowedHandler : HandlerFunc := fun c => (c, some errMethodNotAllowed)

/-- The loop body of applyMiddleware: for i from n-1 down to 0 the Go loop
rebinds h to middleware[i](h); the counter argument is the number of
indices still to process. -/
def applyLoop (middleware : List MW) (h : HandlerFunc) : Nat → HandlerFunc
  | 0 => h
  | n + 1 => applyLoop middleware ((middleware.getD n id) h) n

/-- applyMiddleware from the routing package: runs the downward index loop
over the whole middleware slice. -/
def applyMiddleware (h : HandlerFunc) (middleware : List MW) : HandlerFunc :=
  applyLoop middleware h middleware.length

/-- The nesting described by the spec: each middleware wraps the next,
earlier middleware outermost, terminating at the innermost handler. -/
def nestedWrap : List MW → HandlerFunc → HandlerFunc
  | [], h => h
  | m :: ms, h => m (nestedWrap ms h)

lemma nestedWrap_append (l1 l2 : List MW) (h : HandlerFunc) :
    nestedWrap (l1 ++ l2) h = nestedWrap l1 (nestedWrap l2 h) := by
  induction l1 with
  | nil => rfl
  | cons m ms ih => simp [nestedWrap, ih]

lemma applyLoop_eq_nestedWrap (ms : List MW) :
    ∀ n, n ≤ ms.length → ∀ h, applyLoop ms h n = nestedWrap (ms.take n) h := by
  intro n
  induction n with
  | zero => intro _ h; simp [applyLoop, nestedWrap]
  | succ k ih =>
      intro hle h
      have hk : k < ms.length := Nat.lt_of_lt_of_le (Nat.lt_succ_self k) hle
      have hget : ms.getD k id = ms.get ⟨k, hk⟩ := by
        rw [List.getD_eq_getElem?_getD, List.getElem?_eq_getElem hk]
        rfl
      have htake : ms.take (k + 1) = ms.take k ++ [ms.get ⟨k, hk⟩] := by
        rw [List.take_succ, List.getElem?_eq_getElem hk]
        rfl
      calc applyLoop ms h (k + 1)
          = applyLoop ms ((ms.getD k id) h) k := rfl
        _ = nestedWrap (ms.take k) ((ms.getD k id) h) := ih (Nat.le_of_lt hk) _
        _ = nestedWrap (ms.take (k + 1)) h := by
              rw [htake, nestedWrap_append, hget]; rfl

lemma applyMiddleware_eq_nestedWrap (h : HandlerFunc) (ms : List MW) :
    applyMiddleware h ms = nestedWrap ms h := by
  have := applyLoop_eq_nestedWrap ms ms.length (Nat.le_refl _) h
  simpa [applyMiddleware, List.take_length] using this

/-- A route entry held by a router: method, path pattern, and the handler
closure stored by Router.Add. -/
structure RouteEntry where
  method : String
  path : String
  handler : HandlerFunc

/-- Modelled from the spec: segmentwise pattern matching of the missing
Router tree matcher. A static segment must match exactly, a segment
beginning with the colon marker captures exactly one path segment, and the
star catch-all captures all remaining segments and must consume at least
one. -/
def matchSegs : List String → List String → Bool
  | [], [] => true
  | p :: ps, q :: qs =>
      if p = "*" then true
      else
        match p.toList with
        | ':' :: _ => matchSegs ps qs
        | _ => p == q && matchSegs ps qs
  | _, _ => false

/-- Splitting a character list at slashes, accumulating the current
segment in reverse; the semantics of strings.Split with the slash
separator. -/
def splitSegsAux : List Char → List Char → List String
  | acc, [] => [String.mk acc.reverse]
  | acc, c :: rest =>
      if c = '/' then String.mk acc.reverse :: splitSegsAux [] rest
      else splitSegsAux (c :: acc) rest

/-- The slash-separated segments of a string. -/
def splitSegs (s : String) : List String := splitSegsAux [] s.toList

/-- Modelled from the spec: a pattern matches a path when their
slash-separated segment lists match. -/
def matchPath (pat path : String) : Bool :=
  matchSegs (splitSegs pat) (splitSegs path)

/-- Modelled from the spec: the resolution result of the missing
Router.Find. It never fails: with no route entry whose pattern matches the
path it yields the not-found sentinel; with a pattern match but no entry
for the requested method it yields the distinct method-not-allowed
sentinel; otherwise the first entry matching both. -/
def resolveRoute (entries : List RouteEntry) (method path : String) : Resolved :=
  match entries.findIdx? (fun e => matchPath e.path path && e.method == method) with
  | some i => .route i
  | none =>
      if entries.any (fun e => matchPath e.path path) then .methodNotAllowed
      else .notFound

/-- A Router owns its registered route entries. -/
structure RouterM where
  entries : List RouteEntry

/-- Modelled from the spec: Router.Find stores the resolution result in
the context handler slot; the find instrumentation event records that
route resolution was attempted. -/
def RouterM.find (r : RouterM) (method path : String) (c : Ctx) : Ctx :=
  { c with resolved := resolveRoute r.entries method path, trace := c.trace ++ [Ev.find] }

/-- c.Handler(): the handler the context currently holds, defunctionalized
through the owning router route table; a fresh context holds
NotFoundHandler. -/
def Ctx.handlerOf (c : Ctx) (r : RouterM) : HandlerFunc :=
  match c.resolved with
  | .notFound => notFoundHandler
  | .methodNotAllowed => methodNotAllowedHandler
  | .route i =>
      match r.entries.get? i with
      | some e => e.handler
      | none => notFoundHandler

/-- The Mux dispatcher state the embedded operations read and write:
pre-middleware, global middleware, the host keyed router map, the default
router, and the Debug flag. -/
structure MuxM where
  premiddleware : List MW
  middleware : List MW
  routers : List (String × RouterM)
  router : RouterM
  debug : Bool

/-- Mux.findRouter: when the host map is nonempty and holds the exact host
key, that router; otherwise the default router. -/
def MuxM.findRouter (m : MuxM) (host : String) : RouterM :=
  if m.routers.length > 0 then
    match m.routers.lookup host with
    | some r => r
    | none => m.router
  else m.router

/-- Mux.Host: registers a fresh router under the host name. Go map
assignment overwrites; the association list cons gives the same lookup
behavior since lookup returns the first binding. -/
def MuxM.host (m : MuxM) (name : String) : MuxM :=
  { m with routers := (name, RouterM.mk []) :: m.routers }

/-- Mux.add: resolves the target router for the host and registers the
route pattern with a closure applying the route-level middleware around
the handler at call time. The reverse lookup route table that Mux.add also
updates is embedded separately with Mux.Reverse. -/
def MuxM.add (m : MuxM) (host method path : String) (handler : HandlerFunc)
    (middleware : List MW) : MuxM :=
  let entry : RouteEntry :=
    ⟨method, path, fun c => applyMiddleware handler middleware c⟩
  if m.routers.length > 0 ∧ (m.routers.lookup host).isSome then
    { m with routers := m.routers.map (fun kv =>
        if kv.1 = host then (kv.1, RouterM.mk (kv.2.entries ++ [entry])) else kv) }
  else
    { m with router := RouterM.mk (m.router.entries ++ [entry]) }

/-- DefaultHTTPErrorHandler from the routing package: extract or build the
effective HTTPError (unwrapping a typed internal error), in debug mode
replace the message by the verbose Error() text of the original error,
otherwise wrap a plain string message into a message map; then, if the
response is uncommitted, send NoContent for HEAD requests and the JSON
message otherwise. -/
def defaultHTTPErrorHandler (debug : Bool) (err : GoError) (c : Ctx) : Ctx :=
  let he : Nat × Msg × Option GoError :=
    match err with
    | .typed cd msg intl =>
        match intl with
        | some (.typed cd2 msg2 intl2) => (cd2, msg2, intl2)
        | _ => (cd, msg, intl)
    | .basic _ => (500, .str (statusText 500), none)
  let code := he.1
  let message :=
    if debug then Msg.str err.errText
    else
      match he.2.1 with
      | .str s => Msg.obj [("message", s)]
      | mm => mm
  if c.response.committed then c
  else if c.request.method == "HEAD" then
    { c with response := ⟨true, he.1, none⟩ }
  else
    { c with response := ⟨true, code, some message⟩ }

/-- Modelled from the spec: pool acquisition plus Context.Reset of the
missing context implementation. Reset clears the response state and the
handler reference; NewContext initializes the handler slot to
NotFoundHandler. -/
def resetCtx (req : Request) : Ctx :=
  { request := req, response := ⟨false, 0, none⟩, resolved := .notFound,
    trace := [Ev.reset] }

/-- The chain construction and execution step of Mux.ServeHTTP: with nil
pre-middleware the route is resolved on the fresh context first and only
the global middleware wraps the resolved handler; otherwise the whole
resolve-then-dispatch continuation is wrapped by the pre-middleware chain
and run on the fresh context. -/
def dispatchResult (m : MuxM) (req : Request) : Ctx × Option GoError :=
  match m.premiddleware with
  | [] =>
      let c := (m.findRouter req.host).find req.method req.path (resetCtx req)
      let h := c.handlerOf (m.findRouter req.host)
      let h := applyMiddleware h m.middleware
      h c
  | _ :: _ =>
      let h : HandlerFunc := fun c =>
        let c := (m.findRouter req.host).find req.method req.path c
        let h := c.handlerOf (m.findRouter req.host)
        let h := applyMiddleware h m.middleware
        h c
      let h := applyMiddleware h m.premiddleware
      h (resetCtx req)

/-- The epilogue of Mux.ServeHTTP: when the chain returned an error the
HTTP error handler runs (New installs DefaultHTTPErrorHandler), then the
context is returned to the pool; both steps leave an instrumentation
event. -/
def finishServe (m : MuxM) (p : Ctx × Option GoError) : Ctx :=
  let c :=
    match p.2 with
    | some e =>
        let c := defaultHTTPErrorHandler m.debug e p.1
        { c with trace := c.trace ++ [Ev.errorHandled] }
    | none => p.1
  { c with trace := c.trace ++ [Ev.released] }

/-- Mux.ServeHTTP: acquire and reset a context, build and execute the
middleware chain (dispatchResult), handle a returned error, release the
context. The Go function inlines dispatchResult and finishServe; the
split preserves the code exactly. -/
def serveHTTP (m : MuxM) (req : Request) : Ctx :=
  finishServe m (dispatchResult m req)

/-- The Route record stored by Mux.add in the reverse lookup table:
method, the registered path pattern, and the route name derived from the
handler identity (handlerName uses runtime reflection, so the name is a
plain datum here). -/
structure Route where
  Method : String
  Path : String
  Name : String
deriving DecidableEq, Repr

/-- The byte loop inside Mux.Reverse, over the remaining pattern bytes and
the remaining positional parameters (Go renders each parameter with fmt
%v; parameters are passed already rendered). On a colon byte with a
parameter left, the Go inner loop skips bytes from the colon up to the
next slash or the end (the colon itself always advances since it differs
from the slash, hence the dropWhile over the tail), writes the parameter,
then writes the slash when one stopped the skip; every other byte is
copied verbatim. -/
lemma dropWhile_length_le (p : Char → Bool) (l : List Char) :
    (l.dropWhile p).length ≤ l.length := by
  induction l with
  | nil => simp [List.dropWhile]
  | cons a l ih =>
      by_cases h : p a = true
      · simp only [List.dropWhile_cons, if_pos h, List.length_cons]
        omega
      · simp only [List.dropWhile_cons, if_neg h, List.length_cons]
        omega

def revSub : List Char → List String → List Char
  | [], _ => []
  | c :: rest, ps =>
      if hcp : c = ':' ∧ ps ≠ [] then
        match hdw : List.dropWhile (fun x => x != '/') rest with
        | [] => (ps.headD "").toList
        | d :: rest2 => (ps.headD "").toList ++ d :: revSub rest2 ps.tail
      else c :: revSub rest ps
termination_by cs _ => cs.length
decreasing_by
· have hlen := dropWhile_length_le (fun x => x != '/') rest
  rw [hdw] at hlen
  simp only [List.length_cons] at hlen ⊢
  omega
· simp only [List.length_cons]
  omega

/-- Mux.Reverse: scan the route table for the first route carrying the
requested name (Go iterates the routes map in unspecified order; the list
fixes one) and rebuild its path with the positional parameters; with no
matching route nothing is written and the empty string results. -/
def muxReverse (routes : List Route) (nm : String) (params : List String) : String :=
  match routes.find? (fun r => r.Name == nm) with
  | some r => String.mk (revSub r.Path.toList params)
  | none => ""

/-- A route pattern seen as tokens: literal runs and colon placeholders. -/
inductive Seg where
  | lit (s : String)
  | ph (nm : String)
deriving DecidableEq, Repr

/-- The pattern string a token list denotes, as characters. -/
def renderChars : List Seg → List Char
  | [] => []
  | .lit s :: ts => s.toList ++ renderChars ts
  | .ph nm :: ts => ':' :: nm.toList ++ renderChars ts

/-- Definition following the specification words, for comparison with the
source loop: substitute supplied parameters positionally for placeholders
in declaration order; once parameters run out, each remaining placeholder
is emitted in its literal colon form. -/
def specSubstChars : List Seg → List String → List Char
  | [], _ => []
  | .lit s :: ts, ps => s.toList ++ specSubstChars ts ps
  | .ph nm :: ts, [] => ':' :: nm.toList ++ specSubstChars ts []
  | .ph _ :: ts, p :: ps => p.toList ++ specSubstChars ts ps

/-- After a placeholder the pattern either ends or continues with a
literal starting at a slash (this is how colon segments terminate). -/
def headSlash : List Seg → Bool
  | [] => true
  | .lit s :: _ => decide (s.toList.head? = some '/')
  | .ph _ :: _ => false

/-- Well-formed token lists: literals carry no colon, placeholder names
carry no slash, and each placeholder is terminated by the pattern end or a
literal starting at a slash. -/
def wfToks : List Seg → Bool
  | [] => true
  | .lit s :: ts => decide (':' ∉ s.toList) && wfToks ts
  | .ph nm :: ts => decide ('/' ∉ nm.toList) && headSlash ts && wfToks ts

lemma revSub_nil (ps : List String) : revSub [] ps = [] := by
  simp [revSub]

lemma revSub_cons_no (c : Char) (rest : List Char) (ps : List String)
    (h : ¬(c = ':' ∧ ps ≠ [])) :
    revSub (c :: rest) ps = c :: revSub rest ps := by
  rw [revSub]
  simp only [dif_neg h]

lemma revSub_sub_nil (c : Char) (rest : List Char) (ps : List String)
    (h : c = ':' ∧ ps ≠ [])
    (hdw : List.dropWhile (fun x => x != '/') rest = []) :
    revSub (c :: rest) ps = (ps.headD "").toList := by
  rw [revSub]
  simp only [dif_pos h]
  split
  · rfl
  · rename_i d rest2 heq
    rw [hdw] at heq
    exact absurd heq (by simp)

lemma revSub_sub_cons (c : Char) (rest : List Char) (ps : List String)
    (d : Char) (rest2 : List Char) (h : c = ':' ∧ ps ≠ [])
    (hdw : List.dropWhile (fun x => x != '/') rest = d :: rest2) :
    revSub (c :: rest) ps = (ps.headD "").toList ++ d :: revSub rest2 ps.tail := by
  rw [revSub]
  simp only [dif_pos h]
  split
  · rename_i heq
    rw [hdw] at heq
    exact absurd heq (by simp)
  · rename_i d2 rest3 heq
    rw [hdw] at heq
    injection heq with h1 h2
    rw [h1, h2]

lemma revSub_no_params (cs : List Char) : revSub cs [] = cs := by
  induction cs with
  | nil => exact revSub_nil []
  | cons c rest ih =>
      rw [revSub_cons_no c rest [] (by simp), ih]

lemma revSub_lit_append (cs rest : List Char) (ps : List String)
    (h : ∀ a ∈ cs, a ≠ ':') :
    revSub (cs ++ rest) ps = cs ++ revSub rest ps := by
  induction cs with
  | nil => simp
  | cons a cs2 ih =>
      have ha : a ≠ ':' := h a (by simp)
      rw [List.cons_append, revSub_cons_no a (cs2 ++ rest) ps (by tauto)]
      rw [ih (fun x hx => h x (by simp [hx]))]
      rfl

lemma dropWhile_append_all (p : Char → Bool) (l1 l2 : List Char)
    (h : ∀ a ∈ l1, p a = true) :
    List.dropWhile p (l1 ++ l2) = List.dropWhile p l2 := by
  induction l1 with
  | nil => rfl
  | cons a l ih =>
      rw [List.cons_append, List.dropWhile_cons, if_pos (h a (by simp))]
      exact ih (fun x hx => h x (by simp [hx]))

lemma specSubst_no_params (ts : List Seg) : specSubstChars ts [] = renderChars ts := by
  induction ts with
  | nil => rfl
  | cons t ts ih => cases t <;> simp [specSubstChars, renderChars, ih]

lemma revSub_render_bounded :
    ∀ (n : Nat) (toks : List Seg), toks.length ≤ n → ∀ (ps : List String),
      wfToks toks = true →
      revSub (renderChars toks) ps = specSubstChars toks ps := by
  intro n
  induction n with
  | zero =>
      intro toks hlen ps _
      have : toks = [] := List.eq_nil_of_length_eq_zero (Nat.le_zero.mp hlen)
      subst this
      simp [renderChars, specSubstChars, revSub_nil]
  | succ k ih =>
      intro toks hlen ps hw
      match toks with
      | [] => simp [renderChars, specSubstChars, revSub_nil]
      | .lit s :: ts =>
          have hw2 : wfToks ts = true ∧ ':' ∉ s.toList := by
            simp only [wfToks, Bool.and_eq_true, decide_eq_true_eq] at hw
            exact ⟨hw.2, hw.1⟩
          have hnc : ∀ a ∈ s.toList, a ≠ ':' := by
            intro a ha hcon
            exact hw2.2 (hcon ▸ ha)
          have hlen2 : ts.length ≤ k := by
            simp only [List.length_cons] at hlen
            omega
          rw [renderChars, revSub_lit_append _ _ _ hnc, ih ts hlen2 ps hw2.1]
          rfl
      | .ph nm :: ts =>
          match ps with
          | [] =>
              rw [renderChars, List.cons_append, revSub_cons_no ':' _ [] (by simp),
                  revSub_no_params, specSubstChars, specSubst_no_params]
              simp
          | p :: ps2 =>
              have hw2 : '/' ∉ nm.toList ∧ headSlash ts = true ∧ wfToks ts = true := by
                simp only [wfToks, Bool.and_eq_true, decide_eq_true_eq] at hw
                exact ⟨hw.1.1, hw.1.2, hw.2⟩
              have hnp : ∀ a ∈ nm.toList, (a != '/') = true := by
                intro a ha
                simp only [bne_iff_ne, ne_eq]
                intro hcon
                exact hw2.1 (hcon ▸ ha)
              match ts with
              | [] =>
                  have hdw : List.dropWhile (fun x => x != '/')
                      (nm.toList ++ renderChars ([] : List Seg)) =
                      List.dropWhile (fun x => x != '/') [] :=
                    dropWhile_append_all _ _ _ hnp
                  rw [renderChars, List.cons_append,
                    revSub_sub_nil ':' _ (p :: ps2) (by simp) (by
                      simpa [renderChars, List.dropWhile] using hdw)]
                  simp [specSubstChars]
              | .ph _ :: _ =>
                  exact absurd hw2.2.1 (by simp [headSlash])
              | .lit s :: ts2 =>
                  have hhead : s.toList.head? = some '/' := by
                    simpa [headSlash, decide_eq_true_eq] using hw2.2.1
                  match hs : s.toList with
                  | [] => rw [hs] at hhead; exact absurd hhead (by simp)
                  | a :: s2 =>
                      have ha : a = '/' := by
                        rw [hs] at hhead
                        simpa using hhead
                      have hwlit : ':' ∉ s.toList ∧ wfToks ts2 = true := by
                        simp only [wfToks, Bool.and_eq_true, decide_eq_true_eq] at hw
                        exact ⟨hw.2.1, hw.2.2⟩
                      have hs2nc : ∀ x ∈ s2, x ≠ ':' := by
                        intro x hx hcon
                        have : x ∈ s.toList := by rw [hs]; simp [hx]
                        exact hwlit.1 (hcon ▸ this)
                      have hdw : List.dropWhile (fun x => x != '/')
                          (nm.toList ++ renderChars (.lit s :: ts2)) =
                          '/' :: (s2 ++ renderChars ts2) := by
                        rw [dropWhile_append_all _ _ _ hnp, renderChars, hs, ha]
                        rw [List.cons_append, List.dropWhile_cons, if_neg (by simp)]
                      rw [renderChars, List.cons_append,
                        revSub_sub_cons ':' _ (p :: ps2) '/'
                          (s2 ++ renderChars ts2) (by simp) hdw]
                      have hlen2 : ts2.length ≤ k := by
                        simp only [List.length_cons] at hlen
                        omega
                      simp only [List.headD_cons, List.tail_cons]
                      rw [revSub_lit_append _ _ _ hs2nc, ih ts2 hlen2 ps2 hwlit.2]
                      have hsd : s.data = '/' :: s2 := by rw [← ha]; exact hs
                      simp [specSubstChars, hsd]

lemma revSub_render (toks : List Seg) (ps : List String) (hw : wfToks toks = true) :
    revSub (renderChars toks) ps = specSubstChars toks ps :=
  revSub_render_bounded toks.length toks (Nat.le_refl _) ps hw

/-- The account User model, restricted to the fields the permission check
reads; the permission association list stands for the Permissions relation
to make the stubbed check observable. -/
structure User where
  isActive : Bool
  isStaff : Bool
  isSuperUser : Bool
  permissionCodes : List String
deriving DecidableEq, Repr

/-- UserHasPerm from the account models package: the body is a stub that
ignores user and permission and returns false. -/
def UserHasPerm (_ : User) (_ : String) : Bool := false

/-- User.HasPerm: an active superuser holds every permission; everyone
else falls through to UserHasPerm. -/
def User.HasPerm (u : User) (perm : String) : Bool :=
  if u.isActive && u.isSuperUser then true else UserHasPerm u perm

/-- C10: for every user u and permission string p, u.HasPerm p holds
exactly when u.IsActive and u.IsSuperUser are both true, because the
underlying UserHasPerm check is a stub returning false for every user and
permission; a non-superuser therefore never holds any permission. -/
theorem hasperm_superuser_only (u : User) (p : String) :
    u.HasPerm p = true ↔ (u.isActive = true ∧ u.isSuperUser = true) := by
  cases ha : u.isActive <;> cases hs : u.isSuperUser <;>
    simp [User.HasPerm, UserHasPerm, ha, hs]

/-- C7: findRouter returns the router registered under exactly the request
host key when one exists and the default router otherwise — the selection
is precisely an exact map lookup with default, with no substring or pattern
host matching — and a router registered by Host under a name is the one
selected for that exact name. -/
theorem virtual_host_exact_selection (m : MuxM) (host : String) :
    m.findRouter host = (m.routers.lookup host).getD m.router ∧
    ∀ nm : String, (m.host nm).findRouter nm = RouterM.mk [] := by
  refine ⟨?_, ?_⟩
  · unfold MuxM.findRouter
    cases hl : m.routers.lookup host with
    | some r =>
        have hne : m.routers ≠ [] := by
          intro hcon
          rw [hcon] at hl
          simp [List.lookup] at hl
        rw [if_pos (List.length_pos.mpr hne)]
        rfl
    | none =>
        by_cases hlen : m.routers.length > 0
        · rw [if_pos hlen]
          rfl
        · rw [if_neg hlen]
          rfl
  · intro nm
    unfold MuxM.host MuxM.findRouter
    simp [List.lookup]

/-- C9: for every route name that equals no registered route name
(including the empty table), Reverse yields the empty string whatever
parameters are supplied. -/
theorem reverse_unknown_name_empty (routes : List Route) (nm : String)
    (params : List String) (h : ∀ r ∈ routes, r.Name ≠ nm) :
    muxReverse routes nm params = "" := by
  unfold muxReverse
  have hf : routes.find? (fun r => r.Name == nm) = none := by
    rw [List.find?_eq_none]
    intro r hr
    simp [h r hr]
  rw [hf]

/-- Witness for C9 at a concrete table and name. -/
theorem reverse_unknown_name_empty_witness :
    muxReverse [Route.mk "GET" "/users/:id" "listUsers"] "absent" ["42"] = "" :=
  reverse_unknown_name_empty _ _ _ (by decide)

/-- C3: for a registered route found under its name whose stored path
pattern renders a well-formed token list, Reverse substitutes the supplied
parameters positionally for the leading placeholders, each colon segment
replaced up to the next slash, and emits every remaining placeholder in
literal colon form — the behavior specSubstChars spells out from the
specification. -/
theorem reverse_positional_substitution (routes : List Route) (nm : String)
    (r : Route) (toks : List Seg) (params : List String)
    (hf : routes.find? (fun q => q.Name == nm) = some r)
    (hp : r.Path.toList = renderChars toks)
    (hw : wfToks toks = true) :
    muxReverse routes nm params = String.mk (specSubstChars toks params) := by
  unfold muxReverse
  rw [hf]
  show String.mk (revSub r.Path.toList params) = String.mk (specSubstChars toks params)
  rw [hp, revSub_render toks params hw]

/-- Witness for C3: one parameter against two placeholders substitutes the
first and leaves the second literal. -/
theorem reverse_positional_substitution_witness :
    muxReverse [Route.mk "GET" "/users/:id/books/:bid" "showBook"] "showBook" ["42"] =
      "/users/42/books/:bid" :=
  (reverse_positional_substitution
    [Route.mk "GET" "/users/:id/books/:bid" "showBook"] "showBook"
    (Route.mk "GET" "/users/:id/books/:bid" "showBook")
    [Seg.lit "/users/", Seg.ph "id", Seg.lit "/books/", Seg.ph "bid"] ["42"]
    (by decide) (by decide) (by decide)).trans (by decide)

/-- C1: applyMiddleware composes the middleware list so that earlier
middleware is outermost — the downward index loop yields exactly the
nested wrapping the specification describes — and the dispatched request
nests the three tiers in fixed order: the pre-middleware chain outermost,
then the dispatcher-global middleware, then (through the handler closure
Mux.add registers) the route-level middleware around the innermost
original handler. -/
theorem middleware_composition_order :
    (∀ (h : HandlerFunc) (ms : List MW), applyMiddleware h ms = nestedWrap ms h) ∧
    (∀ (m : MuxM) (method path : String) (hdl : HandlerFunc) (mw : List MW),
        m.routers = [] →
        (m.add "" method path hdl mw).router.entries =
          m.router.entries ++
            [RouteEntry.mk method path (fun c => nestedWrap mw hdl c)]) ∧
    (∀ (m : MuxM) (req : Request) (p : MW) (ps : List MW),
        m.premiddleware = p :: ps →
        serveHTTP m req = finishServe m
          ((nestedWrap (p :: ps) (fun c =>
              nestedWrap m.middleware
                (Ctx.handlerOf ((m.findRouter req.host).find req.method req.path c)
                  (m.findRouter req.host))
                ((m.findRouter req.host).find req.method req.path c)))
            (resetCtx req))) ∧
    (∀ (m : MuxM) (req : Request),
        m.premiddleware = [] →
        serveHTTP m req = finishServe m
          ((nestedWrap m.middleware
              (Ctx.handlerOf
                ((m.findRouter req.host).find req.method req.path (resetCtx req))
                (m.findRouter req.host)))
            ((m.findRouter req.host).find req.method req.path (resetCtx req)))) := by
  refine ⟨applyMiddleware_eq_nestedWrap, ?_, ?_, ?_⟩
  · intro m method path hdl mw hr
    unfold MuxM.add
    rw [if_neg (by simp [hr])]
    simp only [applyMiddleware_eq_nestedWrap]
  · intro m req p ps hpre
    unfold serveHTTP dispatchResult
    rw [hpre]
    simp only [applyMiddleware_eq_nestedWrap]
  · intro m req hpre
    unfold serveHTTP dispatchResult
    rw [hpre]
    simp only [applyMiddleware_eq_nestedWrap]

/-- Witness for C1 at concrete muxes: a registration into the empty
default router, a dispatch through one identity pre-middleware, and a
dispatch with empty pre-middleware, each evaluated to its concrete
result. -/
theorem middleware_composition_order_witness :
    ((MuxM.mk [] [] [] (RouterM.mk []) false).add "" "GET" "/x" notFoundHandler
        []).router.entries =
      [RouteEntry.mk "GET" "/x" (fun c => nestedWrap [] notFoundHandler c)] ∧
    serveHTTP (MuxM.mk [fun h => h] [] [] (RouterM.mk []) false)
        (Request.mk "GET" "h" "/x") =
      Ctx.mk (Request.mk "GET" "h" "/x")
        (Resp.mk true 404 (some (Msg.obj [("message", "Not Found")])))
        Resolved.notFound [Ev.reset, Ev.find, Ev.errorHandled, Ev.released] ∧
    serveHTTP (MuxM.mk [] [] [] (RouterM.mk []) false) (Request.mk "GET" "h" "/x") =
      Ctx.mk (Request.mk "GET" "h" "/x")
        (Resp.mk true 404 (some (Msg.obj [("message", "Not Found")])))
        Resolved.notFound [Ev.reset, Ev.find, Ev.errorHandled, Ev.released] :=
  ⟨middleware_composition_order.2.1 (MuxM.mk [] [] [] (RouterM.mk []) false)
      "GET" "/x" notFoundHandler [] rfl,
   (middleware_composition_order.2.2.1 (MuxM.mk [fun h => h] [] [] (RouterM.mk []) false)
      (Request.mk "GET" "h" "/x") (fun h => h) [] rfl).trans (by decide),
   (middleware_composition_order.2.2.2 (MuxM.mk [] [] [] (RouterM.mk []) false)
      (Request.mk "GET" "h" "/x") rfl).trans (by decide)⟩

/-- C2: with nil pre-middleware, ServeHTTP resolves the route on the
fresh context before any middleware runs — the context the global chain
receives already carries the find event — and applies only the global
middleware; with pre-middleware present, the chain executed is the
pre-middleware wrapping a continuation that performs route resolution at
its invocation, and the context handed to the pre chain carries no find
event yet. -/
theorem dispatch_route_resolution_timing (m : MuxM) (req : Request) :
    (m.premiddleware = [] →
      dispatchResult m req =
        (applyMiddleware
          (Ctx.handlerOf ((m.findRouter req.host).find req.method req.path (resetCtx req))
            (m.findRouter req.host))
          m.middleware)
          ((m.findRouter req.host).find req.method req.path (resetCtx req)) ∧
      ((m.findRouter req.host).find req.method req.path (resetCtx req)).trace =
        [Ev.reset, Ev.find]) ∧
    (∀ (p : MW) (ps : List MW), m.premiddleware = p :: ps →
      dispatchResult m req =
        (applyMiddleware (fun c =>
            (applyMiddleware
              (Ctx.handlerOf ((m.findRouter req.host).find req.method req.path c)
                (m.findRouter req.host))
              m.middleware)
              ((m.findRouter req.host).find req.method req.path c))
          (p :: ps))
          (resetCtx req) ∧
      (resetCtx req).trace = [Ev.reset]) := by
  constructor
  · intro hpre
    refine ⟨?_, rfl⟩
    unfold dispatchResult
    rw [hpre]
  · intro p ps hpre
    refine ⟨?_, rfl⟩
    unfold dispatchResult
    rw [hpre]

/-- Witness for C2: both branches at concrete muxes, the deferred branch
evaluated to its concrete dispatch outcome. -/
theorem dispatch_route_resolution_timing_witness :
    (((MuxM.mk [] [] [] (RouterM.mk []) false).findRouter "h").find "GET" "/x"
        (resetCtx (Request.mk "GET" "h" "/x"))).trace = [Ev.reset, Ev.find] ∧
    (dispatchResult (MuxM.mk [fun h => h] [] [] (RouterM.mk []) false)
        (Request.mk "GET" "h" "/x")).1.trace = [Ev.reset, Ev.find] :=
  ⟨((dispatch_route_resolution_timing (MuxM.mk [] [] [] (RouterM.mk []) false)
      (Request.mk "GET" "h" "/x")).1 rfl).2,
   by
    rw [((dispatch_route_resolution_timing
          (MuxM.mk [fun h => h] [] [] (RouterM.mk []) false)
          (Request.mk "GET" "h" "/x")).2 (fun h => h) [] rfl).1]
    decide⟩

lemma defaultHTTPErrorHandler_trace (d : Bool) (e : GoError) (c : Ctx) :
    (defaultHTTPErrorHandler d e c).trace = c.trace := by
  by_cases h1 : c.response.committed
  · simp [defaultHTTPErrorHandler, h1]
  · by_cases h2 : (c.request.method == "HEAD") = true
    · simp [defaultHTTPErrorHandler, h1, h2]
    · simp [defaultHTTPErrorHandler, h1, h2]

/-- C6: ServeHTTP releases the context unconditionally after the handler
chain completes: the trace of every dispatch ends with the release event,
preceded by the error handling event exactly when the chain returned an
error. -/
theorem context_release_unconditional (m : MuxM) (req : Request) (c : Ctx)
    (res : Option GoError) (h : dispatchResult m req = (c, res)) :
    (res = none → (serveHTTP m req).trace = c.trace ++ [Ev.released]) ∧
    (∀ e, res = some e →
      (serveHTTP m req).trace = c.trace ++ [Ev.errorHandled] ++ [Ev.released]) := by
  constructor
  · intro h0
    subst h0
    unfold serveHTTP finishServe
    rw [h]
  · intro e h0
    subst h0
    unfold serveHTTP finishServe
    rw [h]
    simp [defaultHTTPErrorHandler_trace]

/-- Witness for C6 at a concrete dispatch whose chain errors with the
not-found sentinel. -/
theorem context_release_unconditional_witness :
    (serveHTTP (MuxM.mk [] [] [] (RouterM.mk []) false)
        (Request.mk "GET" "h" "/x")).trace =
      (Ctx.mk (Request.mk "GET" "h" "/x") (Resp.mk false 0 none) Resolved.notFound
        [Ev.reset, Ev.find]).trace ++ [Ev.errorHandled] ++ [Ev.released] :=
  (context_release_unconditional (MuxM.mk [] [] [] (RouterM.mk []) false)
    (Request.mk "GET" "h" "/x")
    (Ctx.mk (Request.mk "GET" "h" "/x") (Resp.mk false 0 none) Resolved.notFound
      [Ev.reset, Ev.find])
    (some errNotFound) rfl).2 errNotFound rfl

/-- Counterexample to C4 as stated: for a typed HTTPError whose Internal
field is itself a typed HTTPError, the response status is the internal
code, not e.Code — here e.Code is 404 yet the status sent is 502. -/
theorem error_handler_internal_unwrap_cex :
    (defaultHTTPErrorHandler false
        (GoError.typed 404 (Msg.str "not found")
          (some (GoError.typed 502 (Msg.str "bad upstream") none)))
        (Ctx.mk (Request.mk "GET" "h" "/x") (Resp.mk false 0 none)
          Resolved.notFound [])).response.status ≠ 404 ∧
    (defaultHTTPErrorHandler false
        (GoError.typed 404 (Msg.str "not found")
          (some (GoError.typed 502 (Msg.str "bad upstream") none)))
        (Ctx.mk (Request.mk "GET" "h" "/x") (Resp.mk false 0 none)
          Resolved.notFound [])).response.status = 502 := by
  decide

/-- C4 amended: with an uncommitted response and a non-HEAD method, a
typed HTTPError is rendered with its own code and message unless its
Internal is itself a typed HTTPError, in which case the internal code and
message are used; an untyped error gives 500 with only the generic text
outside debug mode; in debug mode the body is always the verbose Error()
text of the original error; string messages are wrapped into a message
map outside debug mode; and the response is committed. -/
theorem error_handler_mapping_amended (debug : Bool) (e : GoError) (c : Ctx)
    (hc : c.response.committed = false) (hm : (c.request.method == "HEAD") = false) :
    (∀ cd msg, e = .typed cd msg none →
      (defaultHTTPErrorHandler debug e c).response.status = cd ∧
      (debug = false → (defaultHTTPErrorHandler debug e c).response.body =
        some (match msg with | .str s => Msg.obj [("message", s)] | mm => mm))) ∧
    (∀ cd msg t, e = .typed cd msg (some (.basic t)) →
      (defaultHTTPErrorHandler debug e c).response.status = cd ∧
      (debug = false → (defaultHTTPErrorHandler debug e c).response.body =
        some (match msg with | .str s => Msg.obj [("message", s)] | mm => mm))) ∧
    (∀ cd msg cd2 m2 i2, e = .typed cd msg (some (.typed cd2 m2 i2)) →
      (defaultHTTPErrorHandler debug e c).response.status = cd2 ∧
      (debug = false → (defaultHTTPErrorHandler debug e c).response.body =
        some (match m2 with | .str s => Msg.obj [("message", s)] | mm => mm))) ∧
    (∀ t, e = .basic t →
      (defaultHTTPErrorHandler debug e c).response.status = 500 ∧
      (debug = false → (defaultHTTPErrorHandler debug e c).response.body =
        some (Msg.obj [("message", statusText 500)]))) ∧
    (debug = true → (defaultHTTPErrorHandler debug e c).response.body =
      some (Msg.str e.errText)) ∧
    (defaultHTTPErrorHandler debug e c).response.committed = true := by
  refine ⟨?_, ?_, ?_, ?_, ?_, ?_⟩
  · intro cd msg he
    subst he
    constructor
    · cases debug <;> simp [defaultHTTPErrorHandler, hc, hm]
    · intro hd
      subst hd
      simp [defaultHTTPErrorHandler, hc, hm]
  · intro cd msg t he
    subst he
    constructor
    · cases debug <;> simp [defaultHTTPErrorHandler, hc, hm]
    · intro hd
      subst hd
      simp [defaultHTTPErrorHandler, hc, hm]
  · intro cd msg cd2 m2 i2 he
    subst he
    constructor
    · cases debug <;> simp [defaultHTTPErrorHandler, hc, hm]
    · intro hd
      subst hd
      simp [defaultHTTPErrorHandler, hc, hm]
  · intro t he
    subst he
    constructor
    · cases debug <;> simp [defaultHTTPErrorHandler, hc, hm]
    · intro hd
      subst hd
      simp [defaultHTTPErrorHandler, hc, hm]
  · intro hd
    subst hd
    simp [defaultHTTPErrorHandler, hc, hm]
  · cases debug <;> simp [defaultHTTPErrorHandler, hc, hm]

/-- Witness for C4 amended: an untyped error outside debug mode maps to
500 with only the generic text. -/
theorem error_handler_mapping_amended_witness :
    (defaultHTTPErrorHandler false (GoError.basic "boom")
        (Ctx.mk (Request.mk "GET" "h" "/x") (Resp.mk false 0 none)
          Resolved.notFound [])).response.status = 500 ∧
    (defaultHTTPErrorHandler false (GoError.basic "boom")
        (Ctx.mk (Request.mk "GET" "h" "/x") (Resp.mk false 0 none)
          Resolved.notFound [])).response.body =
      some (Msg.obj [("message", "Internal Server Error")]) := by
  have h := ((error_handler_mapping_amended false (GoError.basic "boom")
      (Ctx.mk (Request.mk "GET" "h" "/x") (Resp.mk false 0 none)
        Resolved.notFound []) rfl rfl).2.2.2.1) "boom" rfl
  exact ⟨h.1, h.2 rfl⟩

/-- Counterexample to C5 as stated: a HEAD request whose route handler
writes a body completes the dispatch with that body in the response — the
dispatcher suppresses nothing outside the error path. -/
theorem head_body_not_suppressed_cex :
    (serveHTTP
        (MuxM.mk [] [] []
          (RouterM.mk [RouteEntry.mk "HEAD" "/x"
            (fun c => ({ c with response := Resp.mk true 200 (some (Msg.str "payload")) },
              none))])
          false)
        (Request.mk "HEAD" "h" "/x")).response.body = some (Msg.str "payload") := by
  decide

/-- C5 amended: HEAD body suppression exists only in
DefaultHTTPErrorHandler — for every error handled there on a HEAD request
with an uncommitted response, NoContent is sent: the response commits with
the resolved status code and no body; bodies written by handlers
themselves pass through unchanged. -/
theorem head_suppression_error_path_amended (debug : Bool) (e : GoError) (c : Ctx)
    (hc : c.response.committed = false) (hm : (c.request.method == "HEAD") = true) :
    (defaultHTTPErrorHandler debug e c).response.body = none ∧
    (defaultHTTPErrorHandler debug e c).response.committed = true := by
  constructor <;> simp [defaultHTTPErrorHandler, hc, hm]

/-- Witness for C5 amended at a concrete HEAD context and error. -/
theorem head_suppression_error_path_amended_witness :
    (defaultHTTPErrorHandler false (GoError.basic "boom")
        (Ctx.mk (Request.mk "HEAD" "h" "/x") (Resp.mk false 0 none)
          Resolved.notFound [])).response.body = none ∧
    (defaultHTTPErrorHandler false (GoError.basic "boom")
        (Ctx.mk (Request.mk "HEAD" "h" "/x") (Resp.mk false 0 none)
          Resolved.notFound [])).response.committed = true :=
  head_suppression_error_path_amended false (GoError.basic "boom")
    (Ctx.mk (Request.mk "HEAD" "h" "/x") (Resp.mk false 0 none)
      Resolved.notFound []) rfl rfl

lemma findIdx?_none_of_all {α : Type} (p : α → Bool) (l : List α)
    (h : ∀ x ∈ l, p x = false) : l.findIdx? p = none := by
  induction l with
  | nil => rfl
  | cons a l ih =>
      rw [List.findIdx?_cons, if_neg (by simp [h a (by simp)])]
      simp [ih (fun x hx => h x (by simp [hx]))]

/-- C8: a path matching some registered pattern with no entry for the
requested method resolves to the method-not-allowed sentinel and the
dispatched response carries status 405; a path matching no pattern
resolves to the not-found sentinel with status 404; resolution is total
and only ever falls back to these sentinel handlers. -/
theorem method_not_allowed_distinction (entries : List RouteEntry)
    (method path host : String) :
    (entries.any (fun e => matchPath e.path path) = true →
      entries.all (fun e => !(matchPath e.path path && e.method == method)) = true →
      resolveRoute entries method path = Resolved.methodNotAllowed ∧
      (serveHTTP (MuxM.mk [] [] [] (RouterM.mk entries) false)
          (Request.mk method host path)).response.status = 405) ∧
    (entries.all (fun e => !(matchPath e.path path)) = true →
      resolveRoute entries method path = Resolved.notFound ∧
      (serveHTTP (MuxM.mk [] [] [] (RouterM.mk entries) false)
          (Request.mk method host path)).response.status = 404) := by
  constructor
  · intro hmatch hnom
    have hall : ∀ e ∈ entries, (matchPath e.path path && e.method == method) = false := by
      intro e he
      have h3 := (List.all_eq_true.mp hnom) e he
      cases hx : (matchPath e.path path && e.method == method) with
      | false => rfl
      | true => rw [hx] at h3; simp at h3
    have hres : resolveRoute entries method path = Resolved.methodNotAllowed := by
      unfold resolveRoute
      rw [findIdx?_none_of_all _ _ hall, if_pos hmatch]
    refine ⟨hres, ?_⟩
    by_cases hh : (method == "HEAD") = true
    · simp [serveHTTP, dispatchResult, finishServe, MuxM.findRouter, RouterM.find,
        resetCtx, Ctx.handlerOf, hres, applyMiddleware, applyLoop,
        methodNotAllowedHandler, errMethodNotAllowed, defaultHTTPErrorHandler, hh]
    · simp [serveHTTP, dispatchResult, finishServe, MuxM.findRouter, RouterM.find,
        resetCtx, Ctx.handlerOf, hres, applyMiddleware, applyLoop,
        methodNotAllowedHandler, errMethodNotAllowed, defaultHTTPErrorHandler, hh]
  · intro hno
    have hall : ∀ e ∈ entries, matchPath e.path path = false := by
      intro e he
      have h3 := (List.all_eq_true.mp hno) e he
      cases hx : matchPath e.path path with
      | false => rfl
      | true => rw [hx] at h3; simp at h3
    have hany : entries.any (fun e => matchPath e.path path) = false := by
      simp only [List.any_eq_false]
      intro e he
      simp [hall e he]
    have hres : resolveRoute entries method path = Resolved.notFound := by
      unfold resolveRoute
      rw [findIdx?_none_of_all _ _ (by
        intro e he
        simp [hall e he]), if_neg (by simp [hany])]
    refine ⟨hres, ?_⟩
    by_cases hh : (method == "HEAD") = true
    · simp [serveHTTP, dispatchResult, finishServe, MuxM.findRouter, RouterM.find,
        resetCtx, Ctx.handlerOf, hres, applyMiddleware, applyLoop,
        notFoundHandler, errNotFound, defaultHTTPErrorHandler, hh]
    · simp [serveHTTP, dispatchResult, finishServe, MuxM.findRouter, RouterM.find,
        resetCtx, Ctx.handlerOf, hres, applyMiddleware, applyLoop,
        notFoundHandler, errNotFound, defaultHTTPErrorHandler, hh]

/-- Witness for C8: one registered GET route; a DELETE on its path gives
405, a request for an unregistered path gives 404. -/
theorem method_not_allowed_distinction_witness :
    (serveHTTP (MuxM.mk [] [] []
        (RouterM.mk [RouteEntry.mk "GET" "/users/:id" notFoundHandler]) false)
        (Request.mk "DELETE" "h" "/users/42")).response.status = 405 ∧
    (serveHTTP (MuxM.mk [] [] []
        (RouterM.mk [RouteEntry.mk "GET" "/users/:id" notFoundHandler]) false)
        (Request.mk "DELETE" "h" "/nope")).response.status = 404 :=
  ⟨((method_not_allowed_distinction
      [RouteEntry.mk "GET" "/users/:id" notFoundHandler]
      "DELETE" "/users/42" "h").1 (by decide) (by decide)).2,
   ((method_not_allowed_distinction
      [RouteEntry.mk "GET" "/users/:id" notFoundHandler]
      "DELETE" "/nope" "h").2 (by decide)).2⟩

end GoPlugins
